import Mathlib

/-!
Verification development for the ColorMemory repository.

The Python sources under `src/` are shallowly embedded as Lean definitions:

* `utils.py` — hex color helpers (`hex_to_rgb`, `rgb_to_hex`, `darker_color`);
* `game.py` — the `ColorMemoryEngine` class, modelled as a record `Engine`
  together with pure state-passing functions; the two `random.choice` calls
  in `prepare_next_round` are modelled by explicit index arguments
  (`random.choice pool` picks `pool[i % len pool]` for the supplied index,
  `none` when the list is empty, i.e. the `IndexError` path);
* highscore persistence (`_load_highscore` / `_save_highscore`) — the
  backing file's raw bytes are passed in as `Option (List Nat)` (`none` =
  `open`/`read` raising `OSError`).  Reading in text mode decodes the bytes
  as strict UTF-8 and applies universal-newline translation (`pyReadText`);
  since the source catches only `OSError`, a decode failure is an uncaught
  `UnicodeDecodeError`, modelled as the `none` result of `load_highscore`.
  Writes are recorded in a `saves` log field; `json.loads` is abstracted as
  a parameter `String → Option PyJson`.

Machine integers are `Int`/`Nat`; Python's `int(str)` / `int(str, 16)` are
modelled character by character (ASCII range).  The single floating-point
operation relevant to the claims, `int(c * 0.6)` on a channel value
`|c| ≤ 255`, is modelled exactly (see `pyTruncMul06`).
-/

set_option maxRecDepth 4000

namespace ColorMemory

/-- ASCII whitespace as stripped by Python's `str.strip()` / `int()`:
space, tab, newline, carriage return, vertical tab, form feed. -/
def pyIsSpace (c : Char) : Bool :=
  c.toNat = 32 || c.toNat = 9 || c.toNat = 10 || c.toNat = 13 || c.toNat = 11 || c.toNat = 12

/-- Strip `pyIsSpace` characters from both ends of a character list. -/
def stripWs (cs : List Char) : List Char :=
  ((cs.dropWhile pyIsSpace).reverse.dropWhile pyIsSpace).reverse

/-- Python `str.strip()` (ASCII whitespace). -/
def pyStrip (s : String) : String := ⟨stripWs s.data⟩

/-- Hexadecimal digit test: `0-9`, `a-f`, `A-F` (by ASCII code point). -/
def isHexDigitChar (c : Char) : Bool :=
  (48 ≤ c.toNat && c.toNat ≤ 57) || (97 ≤ c.toNat && c.toNat ≤ 102)
    || (65 ≤ c.toNat && c.toNat ≤ 70)

/-- Decimal digit test `0-9`. -/
def isDecDigit (c : Char) : Bool := 48 ≤ c.toNat && c.toNat ≤ 57

/-- Value of a hexadecimal digit character. -/
def hexDigitVal (c : Char) : Nat :=
  if c.toNat ≤ 57 then c.toNat - 48
  else if 97 ≤ c.toNat then c.toNat - 87
  else c.toNat - 55

/-- Value of a decimal digit character. -/
def decDigitVal (c : Char) : Nat := c.toNat - 48

/-- Digit-string parser shared by the base-10 and base-16 models of Python's
`int(str, base)`: digits in the given base, where a single underscore may
separate two digits (Python's numeric-literal underscore rule). -/
def parseDigitsCore (isD : Char → Bool) (dval : Char → Nat) (base : Nat) :
    Nat → List Char → Option Nat
  | acc, [] => some acc
  | acc, c :: rest =>
    if isD c then parseDigitsCore isD dval base (acc * base + dval c) rest
    else if c = '_' then
      match rest with
      | [] => none
      | d :: rest2 =>
        if isD d then parseDigitsCore isD dval base (acc * base + dval d) rest2 else none
    else none

/-- Nonempty digit string starting with a digit (no leading underscore). -/
def parseDigitsList (isD : Char → Bool) (dval : Char → Nat) (base : Nat) :
    List Char → Option Nat
  | [] => none
  | c :: rest => if isD c then parseDigitsCore isD dval base (dval c) rest else none

/-- Optional leading sign: split off one `+`/`-` and return the sign
factor together with the remaining characters. -/
def pySign : List Char → Int × List Char
  | [] => (1, [])
  | c :: rest =>
    if c = '+' then (1, rest) else if c = '-' then (-1, rest) else (1, c :: rest)

/-- Optional `0x`/`0X` prefix for base 16, with an optional single
underscore directly after it (Python's grammar). -/
def stripHexPrefix : List Char → List Char
  | c0 :: c1 :: rest2 =>
    if c0 = '0' ∧ (c1 = 'x' ∨ c1 = 'X') then
      match rest2 with
      | '_' :: r3 => r3
      | _ => rest2
    else c0 :: c1 :: rest2
  | cs => cs

/-- Model of Python `int(s, 16)` on a character list: strip whitespace,
optional sign, optional `0x`/`0X` prefix (with an optional single underscore
after it), then hex digits.  `none` models `ValueError`. -/
def pyIntHexChars (cs0 : List Char) : Option Int :=
  (parseDigitsList isHexDigitChar hexDigitVal 16
      (stripHexPrefix (pySign (stripWs cs0)).2)).map
    (fun n => (pySign (stripWs cs0)).1 * (n : Int))

/-- Model of Python `int(s)` (base 10) on a character list: strip whitespace,
optional sign, then decimal digits (underscores between digits allowed).
`none` models `ValueError`. -/
def pyIntDecChars (cs0 : List Char) : Option Int :=
  (parseDigitsList isDecDigit decDigitVal 10 (pySign (stripWs cs0)).2).map
    (fun n => (pySign (stripWs cs0)).1 * (n : Int))

/-- Python `int(s)` on a string. -/
def pyIntDec (s : String) : Option Int := pyIntDecChars s.data

/-!  JSON values as returned by `json.loads`.  Floating-point numbers are
omitted from the model (the store is always written via `str(int(score))`,
so a numeric field is an integer); booleans are kept because on the Python
side `isinstance(True, int)` holds. -/

/-- Abstract result of `json.loads`. -/
inductive PyJson where
  | jint (i : Int)
  | jbool (b : Bool)
  | jstr (s : String)
  | jnull
  | jarr (xs : List PyJson)
  | jobj (fields : List (String × PyJson))

/-- Python `int(x)` applied to a JSON value: ints pass through, booleans
coerce to 0/1, strings are parsed in base 10, everything else is a
`TypeError` (`none`). -/
def pyIntOfJson : PyJson → Option Int
  | PyJson.jint i => some i
  | PyJson.jbool b => some (if b then 1 else 0)
  | PyJson.jstr s => pyIntDec s
  | PyJson.jnull => none
  | PyJson.jarr _ => none
  | PyJson.jobj _ => none

/-- The decoded-content core of `ColorMemoryEngine._load_highscore`
(game.py lines 101-117): the method's behaviour given the text returned by
a successful `file.read()` (`none` = the caught `OSError` path, which
returns 0).  `jparse` abstracts `json.loads` (`none` = any exception,
which the source suppresses).  Every exception raised past this point is
caught in the source, so this layer is total. -/
def load_highscore_text (jparse : String → Option PyJson) (content : Option String) : Int :=
  match content with
  | none => 0
  | some raw0 =>
    if pyStrip raw0 = "" then 0
    else
      match pyIntDec (pyStrip raw0) with
      | some i => max 0 i
      | none =>
        match jparse (pyStrip raw0) with
        | some (PyJson.jobj fields) =>
          match pyIntOfJson ((List.lookup "score" fields).getD (PyJson.jint 0)) with
          | some s => max 0 s
          | none => 0
        | some (PyJson.jint i) => max 0 i
        | some (PyJson.jbool b) => max 0 (if b then (1 : Int) else 0)
        | _ => 0

/-- `ColorMemoryEngine._save_highscore` writes `str(int(score))`; modelled
as appending the value to the write log. (A failed write is swallowed in the
source; the log records the attempted value either way.) -/
def save_highscore (log : List Int) (score : Int) : List Int := log ++ [score]

/-!  Hex color helpers from `utils.py`. -/

/-- Lowercase hex digit character for a value `0..15` (as produced by
Python's `x` format code). -/
def hexChar : Nat → Char
  | 0 => '0' | 1 => '1' | 2 => '2' | 3 => '3' | 4 => '4'
  | 5 => '5' | 6 => '6' | 7 => '7' | 8 => '8' | 9 => '9'
  | 10 => 'a' | 11 => 'b' | 12 => 'c' | 13 => 'd' | 14 => 'e'
  | _ => 'f'

/-- Hex digit expansion with explicit fuel (structural recursion, so the
kernel can evaluate it); `fuel = n + 1` always suffices since a number has
at most `n + 1` hex digits. -/
def hexRepGo : Nat → Nat → List Char
  | 0, _ => []
  | fuel + 1, n => if n < 16 then [hexChar n] else hexRepGo fuel (n / 16) ++ [hexChar (n % 16)]

/-- Hex representation of a natural number, most significant digit first. -/
def hexRep (n : Nat) : List Char := hexRepGo (n + 1) n

/-- Python's `"{:02x}".format(n)` for a natural number: hex digits,
zero-padded on the left to width at least 2. -/
def toHexPad2 (n : Nat) : String :=
  ⟨List.replicate (2 - (hexRep n).length) '0' ++ hexRep n⟩

/-- Python string slice `s[a:b]` on a character list (never raises; short
slices are simply shorter). -/
def pySlice (cs : List Char) (a b : Nat) : List Char := (cs.drop a).take (b - a)

/-- Python `s.lstrip("#")`: remove every leading `'#'`. -/
def pyLstripHash (s : String) : List Char := s.data.dropWhile (fun c => c == '#')

/-- Shared slicing/parsing step of `hex_to_rgb` and `darker_color`: strip
leading `'#'`, then `int(s[0:2], 16)`, `int(s[2:4], 16)`, `int(s[4:6], 16)`.
`none` models the `ValueError` raised by the first failing slice. -/
def parseHexTriple (s : String) : Option (Int × Int × Int) :=
  match pyIntHexChars (pySlice (pyLstripHash s) 0 2),
      pyIntHexChars (pySlice (pyLstripHash s) 2 4),
      pyIntHexChars (pySlice (pyLstripHash s) 4 6) with
  | some r, some g, some b => some (r, g, b)
  | _, _, _ => none

/-- `utils.hex_to_rgb` (utils.py lines 36-38); `none` models the propagated
`ValueError`. -/
def hex_to_rgb (color : String) : Option (Int × Int × Int) := parseHexTriple color

/-- `utils.rgb_to_hex` (utils.py lines 41-43) for non-negative channels, as
used throughout the program. -/
def rgb_to_hex (rgb : Nat × Nat × Nat) : String :=
  "#" ++ toHexPad2 rgb.1 ++ toHexPad2 rgb.2.1 ++ toHexPad2 rgb.2.2

/-- Python `int(c * 0.6)` for an integer channel `c` with `|c| ≤ 255`.
`0.6` as an IEEE double is `0.6 - δ` with `δ ≈ 2.3e-17`; for `|c| ≤ 255`
the product `c * 0.6` rounds to the exact value `3c/5` when `5 ∣ c`
(the error `|c|·δ ≤ 5.7e-15` is below half an ulp at every such magnitude)
and otherwise lies strictly between the integers surrounding `3c/5`, so
truncation toward zero agrees with `⌊3|c|/5⌋` with the sign of `c`. -/
def pyTruncMul06 (c : Int) : Int :=
  if 0 ≤ c then 3 * c / 5 else -(3 * (-c) / 5)

/-- One channel of `darker_color`: `max(0, min(255, int(c * 0.6)))`. -/
def darkerChannel (c : Int) : Int := max 0 (min 255 (pyTruncMul06 c))

/-- `utils.darker_color` (utils.py lines 55-67) at the default
`factor = 0.6` (the only factor the program uses). -/
def darker_color (hexColor : String) : String :=
  match parseHexTriple hexColor with
  | none => "#181f3a"
  | some (r, g, b) =>
    "#" ++ toHexPad2 (darkerChannel r).toNat ++ toHexPad2 (darkerChannel g).toNat
      ++ toHexPad2 (darkerChannel b).toNat

/-!  The `ColorMemoryEngine` class from `game.py`. -/

/-- `config.COLOR_MAP` (config.py lines 19-31), an insertion-ordered dict
modelled as an association list. -/
def COLOR_MAP : List (String × String) :=
  [("Rot", "#ff9aa0"), ("Blau", "#8bbcff"), ("Grün", "#8be2c0"),
   ("Gelb", "#ffe7a3"), ("Orange", "#ffc39c"), ("Lila", "#cab3ff"),
   ("Pink", "#ffb0dc"), ("Braun", "#cba786"), ("Schwarz", "#5a5f73"),
   ("Weiß", "#e6e9f6"), ("Grau", "#a2b3d4")]

/-- State of a `ColorMemoryEngine` instance.  `saves` is the log of values
written through `_save_highscore` (persistence effect). -/
structure Engine where
  colorMap : List (String × String)
  activeWords : List String
  sequence : List String
  round : Nat
  highscore : Int
  timerFactor : ℚ
  saves : List Int
deriving DecidableEq

/-- `random.choice(l)` with the random draw supplied as an index: picks
`l[i % len l]`; `none` models the `IndexError` on an empty list. -/
def pyChoice {α : Type} (l : List α) (i : Nat) : Option α := l.get? (i % l.length)

/-- `ColorMemoryEngine.__init__` (game.py lines 15-33): `color_map or
COLOR_MAP`, allowed words defaulting to the map's keys and filtered to
known keys, empty sequence, round 0, highscore loaded from the store.
`storeContent` is the store's successfully read text (`none` = the
`OSError` path); a store whose bytes do not decode is not represented
here, because in the source the constructor then raises
`UnicodeDecodeError` (see `load_highscore`) and no engine object exists. -/
def mkEngine (colorMapArg : List (String × String)) (allowedWords : Option (List String))
    (timerFactor : ℚ) (jparse : String → Option PyJson) (storeContent : Option String) :
    Engine :=
  let cm := if colorMapArg = [] then COLOR_MAP else colorMapArg
  let allowed := allowedWords.getD (cm.map Prod.fst)
  { colorMap := cm
    activeWords := allowed.filter (fun w => (cm.map Prod.fst).contains w)
    sequence := []
    round := 0
    highscore := load_highscore_text jparse storeContent
    timerFactor := timerFactor
    saves := [] }

/-- `ColorMemoryEngine.reset` (game.py lines 39-41). -/
def reset (e : Engine) : Engine := { e with sequence := [], round := 0 }

/-- The word pool of `prepare_next_round`:
`self.active_words or list(self.color_map.keys())`. -/
def enginePool (e : Engine) : List String :=
  if e.activeWords = [] then e.colorMap.map Prod.fst else e.activeWords

/-- The display attributes returned by `prepare_next_round`. -/
structure RoundSpec where
  word : String
  text_color : String
  background_color : String
  time_budget : ℚ
deriving DecidableEq

/-- The text-color candidate list of `prepare_next_round` (game.py lines
50-54): colors of map entries whose name differs from the drawn word and
lies in the pool, falling back to all of the map's colors when that filter
is empty. -/
def availableColors (e : Engine) (word : String) : List String :=
  let available0 :=
    (e.colorMap.filter (fun p => p.1 != word && (enginePool e).contains p.1)).map Prod.snd
  if available0 = [] then e.colorMap.map Prod.snd else available0

/-- `ColorMemoryEngine.prepare_next_round` (game.py lines 43-64), with the
two `random.choice` draws supplied as indices `wi`, `ci`.  Returns the
round spec (`none` models a propagated `IndexError`) together with the
engine state after the call, mirroring the source's mutation order:
`round` is incremented before the first draw, the word is appended before
the second. -/
def prepare_next_round (e : Engine) (wi ci : Nat) : Option RoundSpec × Engine :=
  match pyChoice (enginePool e) wi with
  | none => (none, { e with round := e.round + 1 })
  | some word =>
    let e1 : Engine := { e with round := e.round + 1, sequence := e.sequence ++ [word] }
    match pyChoice (availableColors e word) ci with
    | none => (none, e1)
    | some textColor =>
      (some { word := word
              text_color := textColor
              background_color := darker_color textColor
              time_budget := ((e.round + 1 : Nat) : ℚ) * e.timerFactor },
       e1)

/-- Model of `str.casefold()`.  On the ASCII range casefolding coincides
with lowercasing; the comparison properties proved below do not depend on
the particular fold function. -/
def pyCasefold (s : String) : String := s.toLower

/-- `ColorMemoryEngine.evaluate_guess` (game.py lines 66-69). -/
def evaluate_guess (e : Engine) (guessedWords : List String) : Bool :=
  guessedWords.map pyCasefold == e.sequence.map pyCasefold

/-- Result triple of `register_failure`. -/
structure FailureResult where
  score : Int
  newHighscore : Bool
  solution : String
deriving DecidableEq

/-- The literal separator string used by `" … ".join` in game.py line 77
(the source file contains the mojibake bytes U+00E2 U+2020 U+2019). -/
def solutionSep : String := " â†’ "

/-- `ColorMemoryEngine.register_failure` (game.py lines 71-78). -/
def register_failure (e : Engine) : FailureResult × Engine :=
  let score : Int := max 0 ((e.round : Int) - 1)
  let newHigh : Bool := decide (e.highscore < score)
  let e' : Engine :=
    if e.highscore < score then
      { e with highscore := score, saves := save_highscore e.saves score }
    else e
  ({ score := score
     newHighscore := newHigh
     solution := String.intercalate solutionSep e.sequence },
   e')

/-- `ColorMemoryEngine.register_success` (game.py lines 80-82). -/
def register_success (e : Engine) : Engine :=
  if e.highscore < (e.round : Int) then { e with highscore := (e.round : Int) } else e

/-- `ColorMemoryEngine.reset_highscore` (game.py lines 88-90). -/
def reset_highscore (e : Engine) : Engine :=
  let e' : Engine := { e with highscore := 0 }
  { e' with saves := save_highscore e'.saves e'.highscore }

/-!  Operation sequences over an engine, for the state invariants. -/

/-- One mutating engine operation. -/
inductive EngOp where
  | nextRound (wi ci : Nat)
  | success
  | failure
  | resetGame
  | resetHigh
deriving DecidableEq

/-- Apply one operation to the engine state. -/
def applyOp (e : Engine) : EngOp → Engine
  | EngOp.nextRound wi ci => (prepare_next_round e wi ci).2
  | EngOp.success => register_success e
  | EngOp.failure => (register_failure e).2
  | EngOp.resetGame => reset e
  | EngOp.resetHigh => reset_highscore e

/-- Apply a list of operations from left to right. -/
def applyOps (e : Engine) (ops : List EngOp) : Engine := ops.foldl applyOp e

/-!  The spec-side acceptance condition of `darker_color` (for the
refinement comparison) and concrete instances used by the witnesses and
counterexamples. -/

/-- The spec's acceptance condition stated from its words — exactly six
hexadecimal digits after stripping leading `#` — for comparison with the
implementation's actual per-slice condition. -/
def specSixHexDigits (s : String) : Bool :=
  ((pyLstripHash s).length == 6) && (pyLstripHash s).all isHexDigitChar

/-- The all-`none` JSON parse function (models `json.loads` always
raising), used to build concrete engines. -/
def jpNone : String → Option PyJson := fun _ => none

/-- Concrete engine used by the C3/C5/C6/C7 witnesses: round 2, highscore
0, revealed sequence of two words. -/
def engFail : Engine :=
  { colorMap := [("a", "#111111")], activeWords := ["a"], sequence := ["x", "y"],
    round := 2, highscore := 0, timerFactor := 3, saves := [] }

/-- Round spec produced by `prepare_next_round engFail 0 0` (the time
budget is left as the unreduced product `3 * 3`). -/
def rndFail : RoundSpec :=
  { word := "a", text_color := "#111111",
    background_color := darker_color "#111111",
    time_budget := ((2 + 1 : Nat) : ℚ) * 3 }

/-- Engine state after `prepare_next_round engFail 0 0`. -/
def engFailNext : Engine := { engFail with round := 3, sequence := ["x", "y", "a"] }

/-- Engine after one successful `prepare_next_round` on a freshly
constructed single-word engine: round 1, highscore 0, no writes yet. -/
def engR1 : Engine := (prepare_next_round (mkEngine [("a", "#111111")] none 3 jpNone none) 0 0).2

/-- Two-word engine at the default timer factor 3, used by the C1/C8
witnesses. -/
def engTwo : Engine := mkEngine [("a", "#111111"), ("b", "#222222")] none 3 jpNone none

/-- Round spec of the first draw on `engTwo` (budget left unreduced). -/
def rndTwo1 : RoundSpec :=
  { word := "a", text_color := "#222222",
    background_color := darker_color "#222222",
    time_budget := ((0 + 1 : Nat) : ℚ) * 3 }

/-- Engine after the first draw on `engTwo`. -/
def engTwo1 : Engine := { engTwo with round := 1, sequence := ["a"] }

/-- Round spec of the second draw (budget left unreduced). -/
def rndTwo2 : RoundSpec :=
  { word := "a", text_color := "#222222",
    background_color := darker_color "#222222",
    time_budget := ((1 + 1 : Nat) : ℚ) * 3 }

/-- Engine after the second draw. -/
def engTwo2 : Engine := { engTwo with round := 2, sequence := ["a", "a"] }

/-- Engine constructed over a single-entry palette. -/
def engOne : Engine := mkEngine [("a", "#111111")] none 3 jpNone none

/-!  Shared helper lemmas. -/

/-- The decoded-content loader is non-negative on every branch. -/
lemma load_highscore_text_nonneg (jparse : String → Option PyJson)
    (content : Option String) : 0 ≤ load_highscore_text jparse content := by
  unfold load_highscore_text
  rcases content with _ | raw0
  · exact le_refl 0
  · simp only
    split
    · exact le_refl 0
    · split
      · exact le_max_left 0 _
      · split
        · split
          · exact le_max_left 0 _
          · exact le_refl 0
        · exact le_max_left 0 _
        · exact le_max_left 0 _
        · exact le_refl 0

/-- `prepare_next_round` only mutates `round` and `sequence`. -/
lemma prepare_next_round_frame (e : Engine) (wi ci : Nat) :
    ((prepare_next_round e wi ci).2).highscore = e.highscore ∧
    ((prepare_next_round e wi ci).2).saves = e.saves ∧
    ((prepare_next_round e wi ci).2).colorMap = e.colorMap ∧
    ((prepare_next_round e wi ci).2).activeWords = e.activeWords ∧
    ((prepare_next_round e wi ci).2).timerFactor = e.timerFactor := by
  unfold prepare_next_round
  rcases pyChoice (enginePool e) wi with _ | word
  · exact ⟨rfl, rfl, rfl, rfl, rfl⟩
  · simp only
    rcases pyChoice (availableColors e word) ci with _ | textColor
    · exact ⟨rfl, rfl, rfl, rfl, rfl⟩
    · exact ⟨rfl, rfl, rfl, rfl, rfl⟩

/-!  C3 — failure registration. -/

/-- C3: when a failure is registered at round `r`, the computed score is
`max 0 (r - 1)`; the highscore is updated and persisted exactly when that
score strictly exceeds the previous highscore (otherwise the state is
untouched); and the emitted solution joins the full revealed sequence in
order. -/
theorem register_failure_spec (e : Engine) :
    (register_failure e).1.score = max 0 ((e.round : Int) - 1) ∧
    ((register_failure e).1.newHighscore = true ↔
      e.highscore < (register_failure e).1.score) ∧
    (e.highscore < (register_failure e).1.score →
      (register_failure e).2.highscore = (register_failure e).1.score ∧
      (register_failure e).2.saves = save_highscore e.saves (register_failure e).1.score) ∧
    (¬ e.highscore < (register_failure e).1.score → (register_failure e).2 = e) ∧
    (register_failure e).1.solution = String.intercalate solutionSep e.sequence := by
  refine ⟨rfl, ?_, ?_, ?_, rfl⟩
  · exact decide_eq_true_iff
  · intro h
    simp only [register_failure]
    rw [if_pos (show e.highscore < max 0 ((e.round : Int) - 1) from h)]
    exact ⟨rfl, rfl⟩
  · intro h
    simp only [register_failure]
    rw [if_neg (show ¬ e.highscore < max 0 ((e.round : Int) - 1) from h)]

/-- Witness for C3 at a concrete failing engine: score 1 beats highscore 0,
so the highscore is updated and the write is persisted. -/
theorem register_failure_spec_witness :
    (register_failure engFail).2.highscore = (register_failure engFail).1.score ∧
    (register_failure engFail).2.saves =
      save_highscore engFail.saves (register_failure engFail).1.score :=
  (register_failure_spec engFail).2.2.1 (by decide)

/-!  C4 — success registration. -/

/-- Counterexample to C4: completing round 1 with stored highscore 0 calls
`register_success`, which raises the in-memory highscore to 1 but performs
no write at all — the completed round count exceeds the stored value, yet
nothing is persisted. -/
theorem register_success_no_persist :
    engR1.round = 1 ∧ engR1.highscore = 0 ∧ engR1.saves = [] ∧
    (register_success engR1).highscore = 1 ∧ (register_success engR1).saves = [] := by
  decide

/-- C4 (amended): `register_success` updates the in-memory highscore to the
current round exactly when the round exceeds the previous best, and never
touches durable storage — persistence of the record happens only in the
failure and reset paths. -/
theorem register_success_spec (e : Engine) :
    (e.highscore < (e.round : Int) →
      register_success e = { e with highscore := (e.round : Int) }) ∧
    (¬ e.highscore < (e.round : Int) → register_success e = e) ∧
    (register_success e).highscore = max e.highscore (e.round : Int) ∧
    (register_success e).saves = e.saves := by
  refine ⟨?_, ?_, ?_, ?_⟩
  · intro h
    simp only [register_success]
    rw [if_pos h]
  · intro h
    simp only [register_success]
    rw [if_neg h]
  · simp only [register_success]
    split
    · next h => simp [max_eq_right (le_of_lt h)]
    · next h => simp [max_eq_left (le_of_not_lt h)]
  · simp only [register_success]
    split
    · rfl
    · rfl

/-- Witness for C4 (amended) at the concrete round-1 engine. -/
theorem register_success_spec_witness :
    register_success engR1 = { engR1 with highscore := (engR1.round : Int) } :=
  (register_success_spec engR1).1 (by decide)

/-!  C5 — highscore monotonicity and reset. -/

/-- C5: no engine operation other than `reset_highscore` ever lowers the
in-memory highscore (singly or along any operation sequence); a freshly
constructed engine starts at a non-negative value; and `reset_highscore`
sets the highscore to exactly 0 and persists that 0, i.e. it is the
highscore-0 state followed by `save(0)`. -/
theorem highscore_spec :
    (∀ e op, op ≠ EngOp.resetHigh → e.highscore ≤ (applyOp e op).highscore) ∧
    (∀ e ops, (∀ op ∈ ops, op ≠ EngOp.resetHigh) →
      e.highscore ≤ (applyOps e ops).highscore) ∧
    (∀ cm aw tf jp c, 0 ≤ (mkEngine cm aw tf jp c).highscore) ∧
    (∀ e, (reset_highscore e).highscore = 0 ∧
      reset_highscore e = { e with highscore := 0, saves := save_highscore e.saves 0 }) := by
  have hstep : ∀ e op, op ≠ EngOp.resetHigh → e.highscore ≤ (applyOp e op).highscore := by
    intro e op hop
    cases op with
    | nextRound wi ci =>
      rw [applyOp, (prepare_next_round_frame e wi ci).1]
    | success =>
      simp only [applyOp, register_success]
      split
      · next h => exact le_of_lt h
      · exact le_refl _
    | failure =>
      simp only [applyOp, register_failure]
      split
      · next h => exact le_of_lt h
      · exact le_refl _
    | resetGame => exact le_refl _
    | resetHigh => exact absurd rfl hop
  refine ⟨hstep, ?_, ?_, ?_⟩
  · intro e ops
    induction ops generalizing e with
    | nil => intro _; exact le_refl _
    | cons op rest ih =>
      intro hops
      have h1 := hstep e op (hops op (List.mem_cons_self op rest))
      have h2 := ih (applyOp e op) (fun o ho => hops o (List.mem_cons_of_mem op ho))
      exact le_trans h1 h2
  · intro cm aw tf jp c
    exact load_highscore_text_nonneg jp c
  · intro e
    exact ⟨rfl, rfl⟩

/-- Witness for C5 along a concrete operation sequence without
`reset_highscore`: a next-round draw, a success and a failure never lower
the highscore of `engFail`. -/
theorem highscore_spec_witness :
    engFail.highscore ≤
      (applyOps engFail [EngOp.nextRound 0 0, EngOp.success, EngOp.failure]).highscore :=
  highscore_spec.2.1 engFail [EngOp.nextRound 0 0, EngOp.success, EngOp.failure]
    (by decide)

/-!  C6 — the `len(sequence) == round` invariant. -/

/-- `random.choice` on a nonempty list always yields an element. -/
lemma pyChoice_some {α : Type} (l : List α) (hl : l ≠ []) (i : Nat) :
    ∃ x, pyChoice l i = some x := by
  have hlen : 0 < l.length := List.length_pos.mpr hl
  have hm : i % l.length < l.length := Nat.mod_lt _ hlen
  exact ⟨l.get ⟨i % l.length, hm⟩, List.get?_eq_get hm⟩

/-- An element drawn by `random.choice` belongs to the list. -/
lemma pyChoice_mem {α : Type} {l : List α} {i : Nat} {x : α}
    (h : pyChoice l i = some x) : x ∈ l := List.get?_mem h

/-- A constructed engine always carries a non-empty color map
(`color_map or COLOR_MAP`). -/
lemma mkEngine_colorMap_ne (cm : List (String × String)) (aw : Option (List String))
    (tf : ℚ) (jp : String → Option PyJson) (c : Option String) :
    (mkEngine cm aw tf jp c).colorMap ≠ [] := by
  unfold mkEngine
  simp only
  split
  · intro h; exact absurd h (by decide)
  · next h => exact h

/-- No engine operation changes the color map. -/
lemma applyOp_colorMap (e : Engine) (op : EngOp) : (applyOp e op).colorMap = e.colorMap := by
  cases op with
  | nextRound wi ci => exact (prepare_next_round_frame e wi ci).2.2.1
  | success => simp only [applyOp, register_success]; split <;> rfl
  | failure => simp only [applyOp, register_failure]; split <;> rfl
  | resetGame => rfl
  | resetHigh => rfl

/-- With a non-empty color map, `prepare_next_round` always draws a word,
appends it, and increments the round (whatever the second draw does). -/
lemma prepare_next_round_state (e : Engine) (wi ci : Nat) (hcm : e.colorMap ≠ []) :
    ∃ w, (prepare_next_round e wi ci).2 =
      { e with round := e.round + 1, sequence := e.sequence ++ [w] } := by
  have hpool : enginePool e ≠ [] := by
    unfold enginePool
    split
    · simpa using hcm
    · next h => exact h
  obtain ⟨w, hw⟩ := pyChoice_some _ hpool wi
  refine ⟨w, ?_⟩
  unfold prepare_next_round
  rw [hw]
  simp only
  rcases pyChoice (availableColors e w) ci with _ | tc
  · rfl
  · rfl

/-- One operation preserves the invariant when the color map is non-empty. -/
lemma applyOp_inv (e : Engine) (op : EngOp) (hcm : e.colorMap ≠ [])
    (hinv : e.sequence.length = e.round) :
    (applyOp e op).sequence.length = (applyOp e op).round := by
  cases op with
  | nextRound wi ci =>
    obtain ⟨w, hw⟩ := prepare_next_round_state e wi ci hcm
    rw [applyOp, hw]
    simp [hinv]
  | success =>
    simp only [applyOp, register_success]
    split
    · exact hinv
    · exact hinv
  | failure =>
    simp only [applyOp, register_failure]
    split
    · exact hinv
    · exact hinv
  | resetGame => rfl
  | resetHigh => exact hinv

/-- Anatomy of a successful `prepare_next_round`: both draws succeeded, the
background is the darkened text color, the budget is `(round + 1) *
timerFactor`, and the new state appends the word and increments the round. -/
lemma prepare_next_round_some (e : Engine) (wi ci : Nat) (r : RoundSpec) (e' : Engine)
    (h : prepare_next_round e wi ci = (some r, e')) :
    pyChoice (enginePool e) wi = some r.word ∧
    pyChoice (availableColors e r.word) ci = some r.text_color ∧
    r.background_color = darker_color r.text_color ∧
    r.time_budget = ((e.round + 1 : Nat) : ℚ) * e.timerFactor ∧
    e' = { e with round := e.round + 1, sequence := e.sequence ++ [r.word] } := by
  unfold prepare_next_round at h
  rcases h1 : pyChoice (enginePool e) wi with _ | word
  · rw [h1] at h; simp at h
  · rw [h1] at h
    simp only at h
    rcases h2 : pyChoice (availableColors e word) ci with _ | tc
    · rw [h2] at h; simp at h
    · rw [h2] at h
      have hfst := congrArg Prod.fst h
      have hsnd := congrArg Prod.snd h
      simp only at hfst hsnd
      have hr := Option.some.inj hfst
      subst hr
      refine ⟨rfl, ?_, rfl, rfl, hsnd.symm⟩
      exact h2

/-- C6: a freshly constructed engine and a `reset` both have an empty
sequence and round 0; every successful `prepare_next_round` appends
exactly the drawn word and increments the round by exactly one; and along
any operation sequence starting from a constructed engine,
`len(sequence) = round` holds. -/
theorem sequence_round_spec :
    (∀ cm aw tf jp c, (mkEngine cm aw tf jp c).sequence = [] ∧
      (mkEngine cm aw tf jp c).round = 0) ∧
    (∀ e : Engine, (reset e).sequence = [] ∧ (reset e).round = 0) ∧
    (∀ e wi ci r e', prepare_next_round e wi ci = (some r, e') →
      e'.sequence = e.sequence ++ [r.word] ∧ e'.round = e.round + 1) ∧
    (∀ cm aw tf jp c ops,
      (applyOps (mkEngine cm aw tf jp c) ops).sequence.length =
        (applyOps (mkEngine cm aw tf jp c) ops).round) := by
  refine ⟨fun _ _ _ _ _ => ⟨rfl, rfl⟩, fun _ => ⟨rfl, rfl⟩, ?_, ?_⟩
  · intro e wi ci r e' hres
    obtain ⟨_, _, _, _, he'⟩ := prepare_next_round_some e wi ci r e' hres
    rw [he']
    exact ⟨rfl, rfl⟩
  · intro cm aw tf jp c ops
    have key : ∀ (ops : List EngOp) (e : Engine), e.colorMap ≠ [] →
        e.sequence.length = e.round →
        (applyOps e ops).sequence.length = (applyOps e ops).round := by
      intro ops
      induction ops with
      | nil => intro e _ h; exact h
      | cons op rest ih =>
        intro e hcm hinv
        exact ih (applyOp e op) (by rw [applyOp_colorMap]; exact hcm)
          (applyOp_inv e op hcm hinv)
    exact key ops _ (mkEngine_colorMap_ne cm aw tf jp c) rfl

/-- Witness for C6 at a concrete engine: the round-3 draw appends one word
and increments the round. -/
theorem sequence_round_spec_witness :
    engFailNext.sequence = engFail.sequence ++ [rndFail.word] ∧
    engFailNext.round = engFail.round + 1 :=
  sequence_round_spec.2.2.1 engFail 0 0 rndFail engFailNext (by rfl)

/-!  C7 — whole-sequence guess evaluation. -/

/-- Mapped lists are equal iff they have the same length and agree under
the map at every position. -/
lemma map_eq_map_iff_pt {α β : Type} (f : α → β) (a b : List α) :
    a.map f = b.map f ↔ (a.length = b.length ∧
      ∀ i (h1 : i < a.length) (h2 : i < b.length),
        f (a.get ⟨i, h1⟩) = f (b.get ⟨i, h2⟩)) := by
  rw [List.ext_get_iff]
  constructor
  · rintro ⟨hlen, hpt⟩
    refine ⟨by simpa using hlen, fun i h1 h2 => ?_⟩
    have h := hpt i (by simpa using h1) (by simpa using h2)
    simpa using h
  · rintro ⟨hlen, hpt⟩
    refine ⟨by simpa using hlen, fun i h1 h2 => ?_⟩
    have h := hpt i (by simpa using h1) (by simpa using h2)
    simpa using h

/-- C7: `evaluate_guess` returns `true` exactly when the guess has the
same length as the accumulated sequence and matches it position by
position under casefolding; in particular every proper prefix of the
sequence evaluates to `false`. -/
theorem evaluate_guess_spec :
    (∀ e g, evaluate_guess e g = true ↔
      (g.length = e.sequence.length ∧
        ∀ i (h1 : i < g.length) (h2 : i < e.sequence.length),
          pyCasefold (g.get ⟨i, h1⟩) = pyCasefold (e.sequence.get ⟨i, h2⟩))) ∧
    (∀ e k, k < e.sequence.length → evaluate_guess e (e.sequence.take k) = false) := by
  have hiff : ∀ e g, evaluate_guess e g = true ↔
      (g.length = e.sequence.length ∧
        ∀ i (h1 : i < g.length) (h2 : i < e.sequence.length),
          pyCasefold (g.get ⟨i, h1⟩) = pyCasefold (e.sequence.get ⟨i, h2⟩)) := by
    intro e g
    show (g.map pyCasefold == e.sequence.map pyCasefold) = true ↔ _
    rw [beq_iff_eq]
    exact map_eq_map_iff_pt pyCasefold g e.sequence
  refine ⟨hiff, fun e k hk => ?_⟩
  rcases hb : evaluate_guess e (e.sequence.take k) with _ | _
  · rfl
  · exfalso
    have hlen := ((hiff e (e.sequence.take k)).mp hb).1
    rw [List.length_take] at hlen
    omega

/-- Witness for C7 at a concrete engine: the proper prefix of length 1 of
the two-word sequence is rejected. -/
theorem evaluate_guess_spec_witness :
    evaluate_guess engFail (engFail.sequence.take 1) = false :=
  evaluate_guess_spec.2 engFail 1 (by decide)

/-!  C8 — the per-round time budget. -/

/-- C8: a successful `prepare_next_round` returns the budget
`(round + 1) * timerFactor` for the incremented round number (3.0 for
round 1 and 6.0 for round 2 at the default factor 3), and with a
non-negative timer factor the budget never decreases from one successful
round to the next. -/
theorem time_budget_spec :
    (∀ e wi ci r e', prepare_next_round e wi ci = (some r, e') →
      r.time_budget = ((e.round + 1 : Nat) : ℚ) * e.timerFactor ∧
      e'.round = e.round + 1) ∧
    (∀ e wi ci r e' wj cj r' e'', 0 ≤ e.timerFactor →
      prepare_next_round e wi ci = (some r, e') →
      prepare_next_round e' wj cj = (some r', e'') →
      r.time_budget ≤ r'.time_budget) := by
  constructor
  · intro e wi ci r e' h
    obtain ⟨_, _, _, hb, he'⟩ := prepare_next_round_some e wi ci r e' h
    refine ⟨hb, ?_⟩
    rw [he']
  · intro e wi ci r e' wj cj r' e'' htf h1 h2
    obtain ⟨_, _, _, hb1, he'⟩ := prepare_next_round_some e wi ci r e' h1
    obtain ⟨_, _, _, hb2, _⟩ := prepare_next_round_some e' wj cj r' e'' h2
    have hround : e'.round = e.round + 1 := by rw [he']
    have htf' : e'.timerFactor = e.timerFactor := by rw [he']
    rw [hb1, hb2, hround, htf']
    apply mul_le_mul_of_nonneg_right _ htf
    exact_mod_cast Nat.le_succ (e.round + 1)

/-- Witness for C8: on `engTwo` (factor 3) the round-1 budget 3 is at most
the round-2 budget 6. -/
theorem time_budget_spec_witness : rndTwo1.time_budget ≤ rndTwo2.time_budget :=
  time_budget_spec.2 engTwo 0 0 rndTwo1 engTwo1 0 0 rndTwo2 engTwo2
    (by norm_num [engTwo, mkEngine]) (by rfl) (by rfl)

/-!  C2 — loading the highscore. -/

/-- `hexChar` produces a hex digit with the right value. -/
lemma hexChar_spec : ∀ d : Fin 16,
    isHexDigitChar (hexChar d.1) = true ∧ hexDigitVal (hexChar d.1) = d.1 := by decide

/-- The code-point range of a hex digit character. -/
lemma hex_char_range (c : Char) (h : isHexDigitChar c = true) :
    (48 ≤ c.toNat ∧ c.toNat ≤ 57) ∨ (97 ≤ c.toNat ∧ c.toNat ≤ 102) ∨
      (65 ≤ c.toNat ∧ c.toNat ≤ 70) := by
  unfold isHexDigitChar at h
  simp only [Bool.or_eq_true, Bool.and_eq_true, decide_eq_true_eq] at h
  tauto

/-- A hex digit character is none of the special characters handled by the
surrounding parsing layers. -/
lemma hexDigit_props (c : Char) (h : isHexDigitChar c = true) :
    pyIsSpace c = false ∧ c ≠ '+' ∧ c ≠ '-' ∧ c ≠ 'x' ∧ c ≠ 'X' ∧ c ≠ '#' := by
  have hr := hex_char_range c h
  refine ⟨?_, ?_, ?_, ?_, ?_, ?_⟩
  · cases hb : pyIsSpace c with
    | false => rfl
    | true =>
      exfalso
      unfold pyIsSpace at hb
      simp only [Bool.or_eq_true, decide_eq_true_eq] at hb
      omega
  · intro he; rw [he] at hr; revert hr; decide
  · intro he; rw [he] at hr; revert hr; decide
  · intro he; rw [he] at hr; revert hr; decide
  · intro he; rw [he] at hr; revert hr; decide
  · intro he; rw [he] at hr; revert hr; decide

/-- Whitespace stripping is the identity on a two-character non-space
list. -/
lemma stripWs_pair (a b : Char) (ha : pyIsSpace a = false) (hb : pyIsSpace b = false) :
    stripWs [a, b] = [a, b] := by
  simp [stripWs, List.dropWhile_cons, ha, hb]

/-- No sign is consumed when the head is not `+`/`-`. -/
lemma pySign_no_sign (a : Char) (l : List Char) (h1 : a ≠ '+') (h2 : a ≠ '-') :
    pySign (a :: l) = (1, a :: l) := by
  simp only [pySign]
  rw [if_neg h1, if_neg h2]

/-- No `0x` prefix is consumed when the second character is not `x`/`X`. -/
lemma stripHexPrefix_pair (a b : Char) (l : List Char) (hb1 : b ≠ 'x') (hb2 : b ≠ 'X') :
    stripHexPrefix (a :: b :: l) = a :: b :: l := by
  simp only [stripHexPrefix]
  rw [if_neg]
  rintro ⟨_, hx | hX⟩
  · exact hb1 hx
  · exact hb2 hX

/-- Parsing a two-hex-digit string yields the positional value. -/
lemma parseDigits_pair (a b : Char) (ha : isHexDigitChar a = true)
    (hb : isHexDigitChar b = true) :
    parseDigitsList isHexDigitChar hexDigitVal 16 [a, b] =
      some (hexDigitVal a * 16 + hexDigitVal b) := by
  simp [parseDigitsList, parseDigitsCore, ha, hb]

/-- `int(s, 16)` on two hex digit characters. -/
lemma pyIntHexChars_pair (a b : Char) (ha : isHexDigitChar a = true)
    (hb : isHexDigitChar b = true) :
    pyIntHexChars [a, b] = some ((hexDigitVal a * 16 + hexDigitVal b : Nat) : Int) := by
  have hpa := hexDigit_props a ha
  have hpb := hexDigit_props b hb
  simp only [pyIntHexChars, stripWs_pair a b hpa.1 hpb.1,
    pySign_no_sign a [b] hpa.2.1 hpa.2.2.1,
    stripHexPrefix_pair a b [] hpb.2.2.2.1 hpb.2.2.2.2.1,
    parseDigits_pair a b ha hb, Option.map_some, one_mul]
  rfl

/-- Small-input evaluation of the fuelled hex expansion. -/
lemma hexRepGo_small (fuel n : Nat) (hf : 1 ≤ fuel) (h : n < 16) :
    hexRepGo fuel n = [hexChar n] := by
  rcases fuel with _ | f
  · omega
  · simp only [hexRepGo]
    rw [if_pos h]

/-- Two-digit evaluation of the fuelled hex expansion. -/
lemma hexRepGo_mid (fuel n : Nat) (hf : 2 ≤ fuel) (h1 : ¬ n < 16) (h2 : n / 16 < 16) :
    hexRepGo fuel n = [hexChar (n / 16), hexChar (n % 16)] := by
  rcases fuel with _ | f
  · omega
  · simp only [hexRepGo]
    rw [if_neg h1, hexRepGo_small f (n / 16) (by omega) h2]
    rfl

/-- For `n ≤ 255`, `toHexPad2` yields exactly two hex digits encoding
`n`. -/
lemma toHexPad2_data (n : Nat) (h : n ≤ 255) :
    ∃ a b, (toHexPad2 n).data = [a, b] ∧ isHexDigitChar a = true ∧
      isHexDigitChar b = true ∧ hexDigitVal a * 16 + hexDigitVal b = n := by
  by_cases h16 : n < 16
  · refine ⟨'0', hexChar n, ?_, by decide, (hexChar_spec ⟨n, h16⟩).1, ?_⟩
    · show (List.replicate (2 - (hexRep n).length) '0' ++ hexRep n) = _
      rw [show hexRep n = [hexChar n] from hexRepGo_small (n + 1) n (by omega) h16]
      rfl
    · have hv : hexDigitVal (hexChar n) = n := (hexChar_spec ⟨n, h16⟩).2
      have h0 : hexDigitVal '0' = 0 := by decide
      rw [h0, hv]
      omega
  · have hq : n / 16 < 16 := by omega
    have hrep : hexRep n = [hexChar (n / 16), hexChar (n % 16)] :=
      hexRepGo_mid (n + 1) n (by omega) h16 hq
    refine ⟨hexChar (n / 16), hexChar (n % 16), ?_,
      (hexChar_spec ⟨n / 16, hq⟩).1, (hexChar_spec ⟨n % 16, Nat.mod_lt n (by omega)⟩).1, ?_⟩
    · show (List.replicate (2 - (hexRep n).length) '0' ++ hexRep n) = _
      rw [hrep]
      rfl
    · have hv1 : hexDigitVal (hexChar (n / 16)) = n / 16 := (hexChar_spec ⟨n / 16, hq⟩).2
      have hv2 : hexDigitVal (hexChar (n % 16)) = n % 16 :=
        (hexChar_spec ⟨n % 16, Nat.mod_lt n (by omega)⟩).2
      rw [hv1, hv2]
      omega

/-!  C10 — hex round trip. -/

/-- C10: for channels in `0..255`, decoding the encoded hex color returns
exactly the original triple. -/
theorem hex_roundtrip (r g b : Nat) (hr : r ≤ 255) (hg : g ≤ 255) (hb : b ≤ 255) :
    hex_to_rgb (rgb_to_hex (r, g, b)) = some ((r : Int), (g : Int), (b : Int)) := by
  obtain ⟨a1, b1, hd1, ha1, hb1, hv1⟩ := toHexPad2_data r hr
  obtain ⟨a2, b2, hd2, ha2, hb2, hv2⟩ := toHexPad2_data g hg
  obtain ⟨a3, b3, hd3, ha3, hb3, hv3⟩ := toHexPad2_data b hb
  have hdata : (rgb_to_hex (r, g, b)).data = '#' :: [a1, b1, a2, b2, a3, b3] := by
    show ("#" ++ toHexPad2 r ++ toHexPad2 g ++ toHexPad2 b).data = _
    rw [String.data_append, String.data_append, String.data_append, hd1, hd2, hd3]
    rfl
  have hstrip : pyLstripHash (rgb_to_hex (r, g, b)) = [a1, b1, a2, b2, a3, b3] := by
    unfold pyLstripHash
    rw [hdata]
    have hane : (a1 == '#') = false :=
      beq_eq_false_iff_ne.mpr (hexDigit_props a1 ha1).2.2.2.2.2
    simp [List.dropWhile_cons, hane]
  unfold hex_to_rgb parseHexTriple
  rw [hstrip,
    show pySlice [a1, b1, a2, b2, a3, b3] 0 2 = [a1, b1] from rfl,
    show pySlice [a1, b1, a2, b2, a3, b3] 2 4 = [a2, b2] from rfl,
    show pySlice [a1, b1, a2, b2, a3, b3] 4 6 = [a3, b3] from rfl,
    pyIntHexChars_pair a1 b1 ha1 hb1, pyIntHexChars_pair a2 b2 ha2 hb2,
    pyIntHexChars_pair a3 b3 ha3 hb3]
  rw [hv1, hv2, hv3]

/-- Witness for C10 at the palette color `#ff9aa0`. -/
theorem hex_roundtrip_witness :
    hex_to_rgb (rgb_to_hex (255, 154, 160)) = some ((255 : Int), 154, 160) :=
  hex_roundtrip 255 154 160 (by decide) (by decide) (by decide)

/-!  C9 — `darker_color`. -/

/-- A darkened channel lies in `0..255`. -/
lemma darkerChannel_bounds (c : Int) : 0 ≤ darkerChannel c ∧ darkerChannel c ≤ 255 := by
  unfold darkerChannel
  constructor
  · exact le_max_left 0 _
  · exact max_le (by omega) (min_le_left 255 _)

/-- A darkened channel as a natural number is at most 255. -/
lemma darkerChannel_toNat_le (c : Int) : (darkerChannel c).toNat ≤ 255 := by
  have h := (darkerChannel_bounds c).2
  omega

/-- A darkened non-negative channel never exceeds the input channel. -/
lemma darkerChannel_le (c : Int) (hc : 0 ≤ c) : darkerChannel c ≤ c := by
  unfold darkerChannel pyTruncMul06
  rw [if_pos hc]
  have h1 : 3 * c / 5 ≤ c := by omega
  exact max_le hc (le_trans (min_le_right 255 _) h1)

/-- A list of length 6 is a six-element literal. -/
lemma length_six {α : Type} (l : List α) (h : l.length = 6) :
    ∃ a b c d e f, l = [a, b, c, d, e, f] := by
  rcases l with _ | ⟨a, _ | ⟨b, _ | ⟨c, _ | ⟨d, _ | ⟨e, _ | ⟨f, _ | ⟨g, t⟩⟩⟩⟩⟩⟩⟩ <;>
    simp only [List.length_cons, List.length_nil] at h
  case cons.cons.cons.cons.cons.cons.nil => exact ⟨a, b, c, d, e, f, rfl⟩
  all_goals omega

/-- Counterexample to C9 as stated: after stripping, "12345" is not six
hexadecimal digits, yet `darker_color` does not return the fallback —
the slices "12", "34" and the one-character slice "5" all parse as hex
numerals, so the result is the darkened color of (18, 52, 5). -/
theorem darker_color_counterexample :
    specSixHexDigits "12345" = false ∧ darker_color "12345" = "#0a1f03" ∧
    darker_color "12345" ≠ "#181f3a" :=
  ⟨by decide, by decide, by decide⟩

/-- C9 (amended): `darker_color` always returns a 7-character string
starting with `#` and never raises; it returns the fallback `#181f3a`
exactly when one of the three two-character slices fails to parse as a hex
integer (`hex_to_rgb` fails); on success each output channel is
`max(0, min(255, int(0.6 * channel)))`, never exceeding a non-negative
input channel; and six valid hex digits always parse with non-negative
channels. -/
theorem darker_color_spec :
    (∀ s, (darker_color s).data.length = 7 ∧ (darker_color s).data.head? = some '#') ∧
    (∀ s, hex_to_rgb s = none → darker_color s = "#181f3a") ∧
    (∀ s r g b, hex_to_rgb s = some (r, g, b) →
      darker_color s =
        rgb_to_hex ((darkerChannel r).toNat, (darkerChannel g).toNat,
          (darkerChannel b).toNat) ∧
      (0 ≤ r → darkerChannel r ≤ r) ∧ (0 ≤ g → darkerChannel g ≤ g) ∧
      (0 ≤ b → darkerChannel b ≤ b)) ∧
    (∀ s, specSixHexDigits s = true →
      ∃ r g b, hex_to_rgb s = some (r, g, b) ∧ 0 ≤ r ∧ 0 ≤ g ∧ 0 ≤ b) := by
  refine ⟨?_, ?_, ?_, ?_⟩
  · intro s
    unfold darker_color
    rcases hp : parseHexTriple s with _ | ⟨⟨r, g, b⟩⟩
    · exact ⟨by decide, by decide⟩
    · obtain ⟨a1, b1, hd1, _, _, _⟩ :=
        toHexPad2_data (darkerChannel r).toNat (darkerChannel_toNat_le r)
      obtain ⟨a2, b2, hd2, _, _, _⟩ :=
        toHexPad2_data (darkerChannel g).toNat (darkerChannel_toNat_le g)
      obtain ⟨a3, b3, hd3, _, _, _⟩ :=
        toHexPad2_data (darkerChannel b).toNat (darkerChannel_toNat_le b)
      have hdata : ("#" ++ toHexPad2 (darkerChannel r).toNat
          ++ toHexPad2 (darkerChannel g).toNat
          ++ toHexPad2 (darkerChannel b).toNat).data =
          ['#', a1, b1, a2, b2, a3, b3] := by
        rw [String.data_append, String.data_append, String.data_append, hd1, hd2, hd3]
        rfl
      rw [hdata]
      exact ⟨rfl, rfl⟩
  · intro s h
    unfold hex_to_rgb at h
    unfold darker_color
    rw [h]
  · intro s r g b h
    unfold hex_to_rgb at h
    refine ⟨?_, fun hr => darkerChannel_le r hr, fun hg => darkerChannel_le g hg,
      fun hb => darkerChannel_le b hb⟩
    unfold darker_color
    rw [h]
    rfl
  · intro s h
    unfold specSixHexDigits at h
    rw [Bool.and_eq_true, beq_iff_eq] at h
    obtain ⟨hlen, hall⟩ := h
    obtain ⟨c1, c2, c3, c4, c5, c6, hcs⟩ := length_six (pyLstripHash s) hlen
    rw [hcs] at hall
    simp only [List.all_cons, List.all_nil, Bool.and_eq_true, Bool.and_true] at hall
    obtain ⟨h1, h2, h3, h4, h5, h6⟩ := hall
    refine ⟨((hexDigitVal c1 * 16 + hexDigitVal c2 : Nat) : Int),
      ((hexDigitVal c3 * 16 + hexDigitVal c4 : Nat) : Int),
      ((hexDigitVal c5 * 16 + hexDigitVal c6 : Nat) : Int), ?_,
      Int.ofNat_nonneg _, Int.ofNat_nonneg _, Int.ofNat_nonneg _⟩
    unfold hex_to_rgb parseHexTriple
    rw [hcs,
      show pySlice [c1, c2, c3, c4, c5, c6] 0 2 = [c1, c2] from rfl,
      show pySlice [c1, c2, c3, c4, c5, c6] 2 4 = [c3, c4] from rfl,
      show pySlice [c1, c2, c3, c4, c5, c6] 4 6 = [c5, c6] from rfl,
      pyIntHexChars_pair c1 c2 h1 h2, pyIntHexChars_pair c3 c4 h3 h4,
      pyIntHexChars_pair c5 c6 h5 h6]

/-- Witness for C9 at the palette color `#ff9aa0`: the output is the
channel-wise darkened color, and no channel grew. -/
theorem darker_color_spec_witness :
    darker_color "#ff9aa0" =
      rgb_to_hex ((darkerChannel 255).toNat, (darkerChannel 154).toNat,
        (darkerChannel 160).toNat) ∧
    (0 ≤ (255 : Int) → darkerChannel 255 ≤ 255) ∧
    (0 ≤ (154 : Int) → darkerChannel 154 ≤ 154) ∧
    (0 ≤ (160 : Int) → darkerChannel 160 ≤ 160) :=
  darker_color_spec.2.2.1 "#ff9aa0" 255 154 160 (by rfl)

/-!  C1 — text color versus the drawn token's own color. -/

/-- Counterexample to C1 as stated: with an active palette of size 1 the
name-filtered candidate list is empty, so the source falls back to all of
the map's colors — which contain the drawn token's own color.  Here the
drawn word is "a" and the returned text color is exactly its own color
`#111111`. -/
theorem text_color_counterexample :
    ((prepare_next_round engOne 0 0).1.map RoundSpec.word) = some "a" ∧
    ((prepare_next_round engOne 0 0).1.map RoundSpec.text_color) = some "#111111" ∧
    List.lookup "a" engOne.colorMap = some "#111111" :=
  ⟨rfl, rfl, rfl⟩

/-- C1 (amended): whenever the candidate filter is non-trivial — some
other pool word is in the color map — and no other map entry shares the
drawn token's color, the returned text color differs from the token's own
color.  (With an active palette of size 1 the fallback may return the
token's own color, as the counterexample shows.) -/
theorem text_color_spec (e : Engine) (wi ci : Nat) (r : RoundSpec) (e' : Engine)
    (c : String)
    (hres : prepare_next_round e wi ci = (some r, e'))
    ( _hc : List.lookup r.word e.colorMap = some c)
    (hinj : ∀ p ∈ e.colorMap, p.1 ≠ r.word → p.2 ≠ c)
    (havail : ∃ p ∈ e.colorMap, p.1 ≠ r.word ∧ (enginePool e).contains p.1 = true) :
    r.text_color ≠ c := by
  obtain ⟨hw, hchoice, _, _, _⟩ := prepare_next_round_some e wi ci r e' hres
  have hne : (e.colorMap.filter
      (fun p => p.1 != r.word && (enginePool e).contains p.1)).map Prod.snd ≠ [] := by
    obtain ⟨p, hmem, hpne, hcont⟩ := havail
    have hpin : p ∈ e.colorMap.filter
        (fun p => p.1 != r.word && (enginePool e).contains p.1) := by
      rw [List.mem_filter]
      refine ⟨hmem, ?_⟩
      rw [Bool.and_eq_true, bne_iff_ne]
      exact ⟨hpne, hcont⟩
    intro hnil
    rw [List.map_eq_nil_iff] at hnil
    rw [hnil] at hpin
    exact absurd hpin (List.not_mem_nil p)
  have hav : availableColors e r.word = (e.colorMap.filter
      (fun p => p.1 != r.word && (enginePool e).contains p.1)).map Prod.snd := by
    unfold availableColors
    rw [if_neg hne]
  rw [hav] at hchoice
  have hmem := pyChoice_mem hchoice
  rw [List.mem_map] at hmem
  obtain ⟨p, hpf, hps⟩ := hmem
  rw [List.mem_filter] at hpf
  obtain ⟨hpcm, hcond⟩ := hpf
  rw [Bool.and_eq_true, bne_iff_ne] at hcond
  have hner := hinj p hpcm hcond.1
  rw [← hps]
  exact hner

/-- Witness for C1 (amended) on the two-entry palette: the draw picks "a"
and the text color `#222222`, which differs from `#111111`. -/
theorem text_color_spec_witness : rndTwo1.text_color ≠ "#111111" :=
  text_color_spec engTwo 0 0 rndTwo1 engTwo1 "#111111" (by rfl) (by rfl)
    (by decide) ⟨("b", "#222222"), by decide⟩

end ColorMemory
